import Mathlib

/-!
Verification of the composer-resolution and row-transformation engine of the
GoodLifeRoyaltySplitter repository (src/services/processor.ts), as a shallow
embedding in Lean 4.

Modelling conventions:
* A spreadsheet cell (`string | number | boolean | null` in TypeScript) is a
  `JsValue`; a missing key (JavaScript `undefined`) is `Option.none` of the
  row lookup.  JavaScript numbers are modelled by `ℚ` (IEEE-754 rounding is
  not modelled; no claim below depends on it).
* A row (`RawCsvRow`, a JavaScript object) is an association list whose keys
  are unique; property reads are `List.lookup`, property writes replace an
  existing binding in place or append a fresh one at the end, exactly like
  JavaScript object assignment preserving insertion order.
* JavaScript built-ins used by the source (`String.prototype.trim`,
  `toLowerCase`, `normalize('NFD')`, `includes`, `parseFloat`,
  `localeCompare`, `Array.prototype.sort`, `Papa.unparse`) are modelled by
  executable Lean functions, faithful on the character ranges the program
  actually handles (the roster and the column names are ASCII); each model is
  annotated at its definition.
-/

namespace RoyaltySplitter

/-- A JavaScript cell value as allowed by the `RawCsvRow` type of the source
(`string | number | boolean | null`).  A missing property (`undefined`) is
represented by `Option.none` at lookup sites. -/
inductive JsValue where
  | vstr (s : String)
  | vnum (q : ℚ)
  | vbool (b : Bool)
  | vnull
deriving DecidableEq

/-- A `RawCsvRow`: a JavaScript object from column name to cell value,
modelled as an insertion-ordered association list. -/
abbrev Row := List (String × JsValue)

/-- JavaScript property read `row[k]`; `none` models `undefined`. -/
def getProp (row : Row) (k : String) : Option JsValue :=
  row.lookup k

/-- JavaScript property write `row[k] = v`: replaces an existing binding in
place, otherwise appends the new binding at the end (object insertion
order). -/
def objSet : Row → String → JsValue → Row
  | [], k, v => [(k, v)]
  | (k1, v1) :: rest, k, v =>
    if k1 = k then (k1, v) :: rest else (k1, v1) :: objSet rest k v

/-- JavaScript truthiness of a cell value (`undefined`, `null`, `""`, `0` and
`false` are falsy). -/
def truthyV : JsValue → Bool
  | JsValue.vstr s => !(s == "")
  | JsValue.vnum q => if q = 0 then false else true
  | JsValue.vbool b => b
  | JsValue.vnull => false

/-- JavaScript truthiness of a property read (a missing property is falsy). -/
def truthy : Option JsValue → Bool
  | none => false
  | some v => truthyV v

/-- Rendering of a JavaScript number as text.  The source calls
`Number.prototype.toString` (shortest round-trip decimal); no claim below
depends on the digit text of a number, so this model renders the exact
rational. -/
def qToString (q : ℚ) : String :=
  if q.den = 1 then toString q.num else toString q.num ++ "/" ++ toString q.den

/-- The JavaScript `String(v)` conversion on a cell value. -/
def jsString : JsValue → String
  | JsValue.vstr s => s
  | JsValue.vnum q => qToString q
  | JsValue.vbool b => if b then "true" else "false"
  | JsValue.vnull => "null"

/-- `(val === null || val === undefined) ? "" : String(val)` from
`processRawData`. -/
def cellString : Option JsValue → String
  | none => ""
  | some JsValue.vnull => ""
  | some v => jsString v

/-- Model of `String.prototype.trim`: drop leading and trailing
whitespace. -/
def trimChars (l : List Char) : List Char :=
  ((l.dropWhile Char.isWhitespace).reverse.dropWhile Char.isWhitespace).reverse

/-- Substring test on character lists (model of
`String.prototype.includes`). -/
def charsContain (s pat : List Char) : Bool :=
  match s with
  | [] => pat.isEmpty
  | c :: t => pat.isPrefixOf (c :: t) || charsContain t pat

/-- `a.includes b` for strings. -/
def strIncludes (s pat : String) : Bool :=
  charsContain s.data pat.data

/-- Model of `String.prototype.normalize('NFD')` on one character: canonical
decomposition for the precomposed Latin letters the statement data can
contain; identity on every other character (in particular on all of
ASCII). -/
def nfdDecompose (c : Char) : List Char :=
  match c with
  | 'á' => ['a', '́'] | 'à' => ['a', '̀'] | 'â' => ['a', '̂']
  | 'ä' => ['a', '̈'] | 'ã' => ['a', '̃'] | 'å' => ['a', '̊']
  | 'é' => ['e', '́'] | 'è' => ['e', '̀'] | 'ê' => ['e', '̂']
  | 'ë' => ['e', '̈']
  | 'í' => ['i', '́'] | 'ì' => ['i', '̀'] | 'î' => ['i', '̂']
  | 'ï' => ['i', '̈']
  | 'ó' => ['o', '́'] | 'ò' => ['o', '̀'] | 'ô' => ['o', '̂']
  | 'ö' => ['o', '̈'] | 'õ' => ['o', '̃']
  | 'ú' => ['u', '́'] | 'ù' => ['u', '̀'] | 'û' => ['u', '̂']
  | 'ü' => ['u', '̈']
  | 'ñ' => ['n', '̃'] | 'ç' => ['c', '̧'] | 'ý' => ['y', '́']
  | 'Á' => ['A', '́'] | 'À' => ['A', '̀'] | 'Â' => ['A', '̂']
  | 'Ä' => ['A', '̈'] | 'Ã' => ['A', '̃'] | 'Å' => ['A', '̊']
  | 'É' => ['E', '́'] | 'È' => ['E', '̀'] | 'Ê' => ['E', '̂']
  | 'Ë' => ['E', '̈']
  | 'Í' => ['I', '́'] | 'Ì' => ['I', '̀'] | 'Î' => ['I', '̂']
  | 'Ï' => ['I', '̈']
  | 'Ó' => ['O', '́'] | 'Ò' => ['O', '̀'] | 'Ô' => ['O', '̂']
  | 'Ö' => ['O', '̈'] | 'Õ' => ['O', '̃']
  | 'Ú' => ['U', '́'] | 'Ù' => ['U', '̀'] | 'Û' => ['U', '̂']
  | 'Ü' => ['U', '̈']
  | 'Ñ' => ['N', '̃'] | 'Ç' => ['C', '̧'] | 'Ý' => ['Y', '́']
  | c => [c]

/-- The combining diacritical marks block stripped by the source
(`replace(/[̀-ͯ]/g, '')`). -/
def isCombiningMark (c : Char) : Bool :=
  decide (0x300 ≤ c.toNat ∧ c.toNat ≤ 0x36F)

/-- `normalizeForComparison` (processor.ts lines 72-78): NFD-decompose,
strip combining marks, lowercase, trim.  `Char.toLower` models the
JavaScript `toLowerCase` (identical on the ASCII characters that survive
mark stripping here). -/
def normalizeForComparison (text : String) : String :=
  ⟨trimChars (((text.data.bind nfdDecompose).filter
      fun c => !(isCombiningMark c)).map Char.toLower)⟩

/-- `MANDATORY_COLUMN` (processor.ts line 5). -/
def MANDATORY_COLUMN : String := "Song Composer(s)"

/-- `KNOWN_COMPOSERS` (processor.ts lines 8-37), the fixed reference roster,
in its declared order. -/
def KNOWN_COMPOSERS : List String := [
  "Almos Balla",
  "ANDRAWES MESHACH",
  "FELIX SCHUBERT",
  "Utkarsh Vaishnav",
  "Fotis Mylonas",
  "Moises Abraham Monasterio",
  "Gustavo Dias Leffa",
  "Ion Purice",
  "Oybek Jabborov",
  "Anderson Santos de Paula",
  "Noel Ivan Montemayor",
  "Andrew Sho Neville",
  "Jesus Enrique Fernandez Sanchez",
  "Milton Sabas Martinez Santos",
  "Dennis Mauricio de la Torre  Suarez",
  "Andres Romario Rubio Manzano",
  "Renaldas Aleinikovas",
  "LATIN HOUSE GANG",
  "Ian Michael Bernal Moreira",
  "Raul Ivan Garcia Marin",
  "Jesus Alberto Lopez Vazquez",
  "Norinobu Yu",
  "Jorge Pardo Cordero",
  "DMITRY BYSTROV",
  "AbdelNaser Mohammad A Alhusaini",
  "Nicolae Purice Ion Tudor Dds",
  "Marcos Julian Galan Gil",
  "YU NORINOBU"]

/-- `OUTLIERS_GROUP` (processor.ts line 39). -/
def OUTLIERS_GROUP : String := "Good Life Composers Outliers"

/-- `COLUMN_MAPPING` (processor.ts lines 42-53). -/
def COLUMN_MAPPING : List (String × String) := [
  ("Date From (MM/YYYY)", "Date From (MM/YYYY)"),
  ("Date To (MM/YYYY)", "Date To (MM/YYYY)"),
  ("Song Title", "TITLE"),
  ("Song Composer(s)", "COMPOSER"),
  ("Territory", "TERRITORY"),
  ("Exploitation Source Name", "SOURCE"),
  ("Usage Count", "COUNT"),
  ("Gross Amount", "GROSS AMOUNT"),
  ("Administration Amount", "ADMIN %"),
  ("Amount", "NET AMOUNT")]

/-- `ESSENTIAL_COLUMNS` (processor.ts lines 56-65). -/
def ESSENTIAL_COLUMNS : List String := [
  "Date From (MM/YYYY)",
  "Date To (MM/YYYY)",
  "Song Title",
  "Song Composer(s)",
  "Territory",
  "Exploitation Source Name",
  "Usage Count",
  "Amount"]

/-- `normalizeFilename` (processor.ts lines 67-69):
`name.toLowerCase().replace(/ /g, "") + "_royalties.csv"`. -/
def normalizeFilename (name : String) : String :=
  ⟨(name.data.map Char.toLower).filter fun c => !(c == ' ')⟩ ++ "_royalties.csv"

/-- Result record of `findActualComposer`
(`{ groupName, cleanName }`). -/
structure ComposerMatch where
  groupName : String
  cleanName : String
deriving DecidableEq

/-- The `for (const knownComposer of KNOWN_COMPOSERS)` loop of
`findActualComposer` (processor.ts lines 85-102), as structural recursion
over the remaining roster; `normalized` is the normalized raw text computed
once before the loop. -/
def findComposerLoop (normalized : String) (rawComposerText : String) :
    List String → ComposerMatch
  | [] => { groupName := OUTLIERS_GROUP, cleanName := rawComposerText }
  | knownComposer :: rest =>
    if strIncludes normalized (normalizeForComparison knownComposer) then
      { groupName := knownComposer, cleanName := knownComposer }
    else
      findComposerLoop normalized rawComposerText rest

/-- `findActualComposer` (processor.ts lines 81-103). -/
def findActualComposer (rawComposerText : String) : ComposerMatch :=
  findComposerLoop (normalizeForComparison rawComposerText) rawComposerText
    KNOWN_COMPOSERS

/-- The containment test `findActualComposer` applies to one roster entry:
the normalized roster entry occurs inside the normalized raw label. -/
def composerMatches (rawComposerText knownComposer : String) : Bool :=
  strIncludes (normalizeForComparison rawComposerText)
    (normalizeForComparison knownComposer)

/-- `ProcessedComposerData` (types.ts). -/
structure ProcessedComposerData where
  composerName : String
  filename : String
  rows : List Row
  rowCount : Nat
deriving DecidableEq

/-- `ProcessingStats` (types.ts).  The wall-clock `processingTimeMs` field is
not representable in a pure embedding and is omitted. -/
structure ProcessingStats where
  totalRows : Nat
  totalComposers : Nat
deriving DecidableEq

/-- `const rawComposerText = rawComposer ? String(rawComposer).trim() :
"Unknown Composer"` (processor.ts lines 162-163). -/
def rawComposerTextOf (row : Row) : String :=
  match getProp row MANDATORY_COLUMN with
  | some v => if truthyV v then ⟨trimChars (jsString v).data⟩ else "Unknown Composer"
  | none => "Unknown Composer"

/-- One iteration of the `columnsToKeep.forEach` body building `filteredRow`
(processor.ts lines 174-187). -/
def transformStep (cleanName : String) (row : Row) (acc : Row) (col : String) : Row :=
  let val := getProp row col
  let cellValue := cellString val
  let outputColumnName := (List.lookup col COLUMN_MAPPING).getD col
  if outputColumnName = "COMPOSER" then
    objSet acc outputColumnName (JsValue.vstr cleanName)
  else
    objSet acc outputColumnName (JsValue.vstr cellValue)

/-- The `filteredRow` built for one input row (processor.ts lines 172-190),
including the appended blank `ARTIST` column. -/
def transformRow (columnsToKeep : List String) (cleanName : String) (row : Row) : Row :=
  objSet (columnsToKeep.foldl (transformStep cleanName row) []) "ARTIST"
    (JsValue.vstr "")

/-- The transformed row `processRawData` produces for one input row. -/
def rowOutputOf (columnsToKeep : List String) (row : Row) : Row :=
  transformRow columnsToKeep
    (findActualComposer (rawComposerTextOf row)).cleanName row

/-- The insertion-ordered `Map<string, RawCsvRow[]>` of `processRawData`. -/
abbrev GroupMap := List (String × List Row)

/-- `groupMap.get(groupName)?.push(filteredRow)` together with the lazy
bucket creation of processor.ts lines 168-170: append `v` to the entry of
key `k`, creating the entry at the end on first sight (JavaScript `Map`
preserves key insertion order). -/
def mapAppend (m : GroupMap) (k : String) (v : Row) : GroupMap :=
  match m with
  | [] => [(k, [v])]
  | (k1, rows) :: rest =>
    if k1 = k then (k1, rows ++ [v]) :: rest else (k1, rows) :: mapAppend rest k v

/-- The `rawData.forEach` body of `processRawData` (lines 160-193) for one
row. -/
def processRow (columnsToKeep : List String) (m : GroupMap) (row : Row) : GroupMap :=
  mapAppend m (findActualComposer (rawComposerTextOf row)).groupName
    (rowOutputOf columnsToKeep row)

/-- The group map after consuming all input rows. -/
def buildGroupMap (rawData : List Row) (columnsToKeep : List String) : GroupMap :=
  rawData.foldl (processRow columnsToKeep) []

/-- One entry of `Array.from(groupMap.entries()).map(...)` (processor.ts
lines 196-203). -/
def toBucket (p : String × List Row) : ProcessedComposerData :=
  { composerName := p.1
    filename := normalizeFilename p.1
    rows := p.2
    rowCount := p.2.length }

/-- Integer value of an `Ordering` as returned by a JavaScript comparator. -/
def ordInt : Ordering → Int
  | Ordering.lt => -1
  | Ordering.eq => 0
  | Ordering.gt => 1

/-- Three-way comparison of natural numbers. -/
def cmpNat (a b : Nat) : Ordering :=
  if a < b then Ordering.lt else if b < a then Ordering.gt else Ordering.eq

/-- Lexicographic three-way comparison of lists of naturals (a proper prefix
compares smaller). -/
def cmpNatList : List Nat → List Nat → Ordering
  | [], [] => Ordering.eq
  | [], _ :: _ => Ordering.lt
  | _ :: _, [] => Ordering.gt
  | a :: as, b :: bs =>
    match cmpNat a b with
    | Ordering.eq => cmpNatList as bs
    | o => o

/-- Primary collation key of a string under the default (root) collation:
its case-folded code points. -/
def primaryKey (s : String) : List Nat :=
  s.data.map fun c => c.toLower.toNat

/-- Case (tertiary) collation key: lowercase weighs less than uppercase. -/
def caseKey (s : String) : List Nat :=
  s.data.map fun c => if c.isLower then 0 else 1

/-- Compare two (primary, case) key pairs: primary difference decides,
ties fall through to the case key. -/
def pairCmp (x y : List Nat × List Nat) : Ordering :=
  match cmpNatList x.1 y.1 with
  | Ordering.eq => cmpNatList x.2 y.2
  | o => o

/-- Root-collation three-way comparison of strings. -/
def strCollate (a b : String) : Ordering :=
  pairCmp (primaryKey a, caseKey a) (primaryKey b, caseKey b)

/-- Model of `String.prototype.localeCompare` under the default locale (ICU
root collation), restricted to the ASCII strings this program compares:
letters compare case-insensitively first (primary strength), with lowercase
before uppercase as the tie-break (tertiary strength). -/
def localeCompare (a b : String) : Int :=
  ordInt (strCollate a b)

/-- The sort comparator of `processRawData` (processor.ts lines 206-210):
outliers last, otherwise `localeCompare` on the composer names. -/
def bucketCmp (a b : ProcessedComposerData) : Int :=
  if a.composerName = OUTLIERS_GROUP then 1
  else if b.composerName = OUTLIERS_GROUP then -1
  else localeCompare a.composerName b.composerName

/-- Stable insertion of `x` into `l`: `x` goes after every element that the
comparator does not place strictly after `x`. -/
def insertSorted (cmp : α → α → Int) (x : α) : List α → List α
  | [] => [x]
  | y :: ys => if cmp y x ≤ 0 then y :: insertSorted cmp x ys else x :: y :: ys

/-- Model of `Array.prototype.sort` with a comparator: the stable sort
consistent with the comparator, as stable insertion sort. -/
def sortByCmp (cmp : α → α → Int) (l : List α) : List α :=
  l.foldl (fun acc x => insertSorted cmp x acc) []

/-- The pairwise order a comparator-sorted array satisfies: `a` may precede
`b` when the comparator does not demand the opposite order. -/
def sortRel (cmp : α → α → Int) (a b : α) : Prop :=
  cmp a b ≤ 0 ∨ 0 < cmp b a

/-- `processRawData` (processor.ts lines 151-226): group, bucket, sort
(outliers last, then by name), and report stats. -/
def processRawData (rawData : List Row) (columnsToKeep : List String) :
    List ProcessedComposerData × ProcessingStats :=
  let groupMap := buildGroupMap rawData columnsToKeep
  let processedData := groupMap.map toBucket
  let sortedData := sortByCmp bucketCmp processedData
  (sortedData,
   { totalRows := rawData.length, totalComposers := sortedData.length })

/-- Papa-style quoting decision: a field is quoted when it contains the
quote character, the delimiter (tab), a line break, or has a leading or
trailing space (model of `Papa.unparse` with default `quotes: false`). -/
def needsQuotes (field : String) : Bool :=
  field.data.any (fun c => c = '"' || c = '\t' || c = '\n' || c = '\r')
    || field.data.head? == some ' '
    || field.data.getLast? == some ' '

/-- Double every quote character (CSV escaping). -/
def escapeQuotes (l : List Char) : List Char :=
  l.bind fun c => if c = '"' then ['"', '"'] else [c]

/-- Render one field, quoting when needed. -/
def renderField (s : String) : String :=
  if needsQuotes s then ⟨'"' :: (escapeQuotes s.data ++ ['"'])⟩ else s

/-- The text Papa.unparse writes for one cell of an object row: missing and
`null` cells become the empty string. -/
def unparseCell (r : Row) (c : String) : String :=
  match getProp r c with
  | none => ""
  | some JsValue.vnull => ""
  | some v => jsString v

/-- One data line of the delimited output. -/
def unparseRow (order : List String) (r : Row) : String :=
  String.intercalate "\t" (order.map fun c => renderField (unparseCell r c))

/-- Model of `Papa.unparse(rows, { delimiter: "\t", header: true, columns:
order })`: a header line of the fixed column order followed by one line per
row, joined with CRLF. -/
def unparse (rows : List Row) (order : List String) : String :=
  String.intercalate "\r\n"
    ((String.intercalate "\t" (order.map renderField)) :: rows.map (unparseRow order))

/-- `generateCsvContent` (processor.ts lines 228-246).  Note the `columns`
parameter is accepted but never consulted: output always uses the fixed
`outputOrder`. -/
def generateCsvContent (rows : List Row) (columns : List String) : String :=
  let outputOrder := [
    "Date From (MM/YYYY)",
    "Date To (MM/YYYY)",
    "TITLE",
    "COMPOSER",
    "TERRITORY",
    "SOURCE",
    "COUNT",
    "NET AMOUNT"]
  unparse rows outputOrder

/-- Decimal digit run value. -/
def digitsVal (l : List Char) : Nat :=
  l.foldl (fun n c => 10 * n + (c.toNat - 48)) 0

/-- Model of the JavaScript `parseFloat` built-in on its decimal grammar:
skip leading whitespace, optional sign, integer digits, optional fraction,
optional exponent; the longest valid prefix is parsed and `none` models
`NaN` (no digits at all).  The exact rational value of the parsed literal is
returned (float rounding is not modelled). -/
def parseFloatQ (s : String) : Option ℚ :=
  let l0 := s.data.dropWhile Char.isWhitespace
  let sgn : Int := match l0 with
    | '-' :: _ => -1
    | _ => 1
  let l1 := match l0 with
    | '-' :: rest => rest
    | '+' :: rest => rest
    | _ => l0
  let intDigits := l1.takeWhile Char.isDigit
  let l2 := l1.dropWhile Char.isDigit
  let fracDigits := match l2 with
    | '.' :: rest => rest.takeWhile Char.isDigit
    | _ => []
  let l3 := match l2 with
    | '.' :: rest => rest.dropWhile Char.isDigit
    | _ => l2
  if intDigits.isEmpty && fracDigits.isEmpty then none
  else
    let expVal : Int := match l3 with
      | 'e' :: rest | 'E' :: rest =>
        match rest with
        | '-' :: ds => -(digitsVal (ds.takeWhile Char.isDigit) : Int)
        | '+' :: ds => (digitsVal (ds.takeWhile Char.isDigit) : Int)
        | ds => (digitsVal (ds.takeWhile Char.isDigit) : Int)
      | _ => 0
    let n : Int := sgn * (digitsVal (intDigits ++ fracDigits) : Int)
    if 0 ≤ expVal then
      some (mkRat (n * (10 : Int) ^ expVal.toNat) ((10 : Nat) ^ fracDigits.length))
    else
      some (mkRat n ((10 : Nat) ^ (fracDigits.length + (-expVal).toNat)))

/-- `parseFloat(String(row["NET AMOUNT"] || "0")) || 0` (processor.ts lines
252 and 305): the base amount a split starts from; `NaN` collapses to 0. -/
def baseAmountOf (row : Row) : ℚ :=
  let str : String := match getProp row "NET AMOUNT" with
    | some v => if truthyV v then jsString v else "0"
    | none => "0"
  (parseFloatQ str).getD 0

/-- `row[k] || ""`: the cell value when truthy, else the empty string. -/
def valOr (row : Row) (k : String) : JsValue :=
  match getProp row k with
  | some v => if truthyV v then v else JsValue.vstr ""
  | none => JsValue.vstr ""

/-- The transformed row of `generateCsvContentWithAdmin` (processor.ts lines
250-270).  The source stringifies the three computed amounts on the spot
(`.toString()`); this model keeps the exact numbers and stringifies at
serialization time, which produces the same output text. -/
def adminTransformRow (adminPercent : ℚ) (row : Row) : Row :=
  let grossAmount := baseAmountOf row
  let adminAmount := grossAmount * (adminPercent / 100)
  let netAmount := grossAmount - adminAmount
  [("Date From (MM/YYYY)", valOr row "Date From (MM/YYYY)"),
   ("Date To (MM/YYYY)", valOr row "Date To (MM/YYYY)"),
   ("Song Title", valOr row "TITLE"),
   ("Song Composer(s)", valOr row "COMPOSER"),
   ("Territory", valOr row "TERRITORY"),
   ("Exploitation Source Name", valOr row "SOURCE"),
   ("Usage Count", valOr row "COUNT"),
   ("Gross Amount", JsValue.vnum grossAmount),
   ("Administration Amount", JsValue.vnum adminAmount),
   ("Net Amount", JsValue.vnum netAmount)]

/-- `generateCsvContentWithAdmin` (processor.ts lines 248-290). -/
def generateCsvContentWithAdmin (rows : List Row) (columns : List String)
    (adminPercent : ℚ) : String :=
  let outputOrder := [
    "Date From (MM/YYYY)",
    "Date To (MM/YYYY)",
    "Song Title",
    "Song Composer(s)",
    "Territory",
    "Exploitation Source Name",
    "Usage Count",
    "Gross Amount",
    "Administration Amount",
    "Net Amount"]
  unparse (rows.map (adminTransformRow adminPercent)) outputOrder

/-- The transformed row of `generateCsvContentWithDualPercentage`
(processor.ts lines 303-327): first cut from the base, second cut from the
intermediate; the intermediate is written under "Gross", the second cut
under "Admin %", the final net under "Net". -/
def dualTransformRow (adminPercent platformPercent : ℚ) (row : Row) : Row :=
  let originalAmount := baseAmountOf row
  let adminAmount := originalAmount * (adminPercent / 100)
  let afterAdmin := originalAmount - adminAmount
  let platformAmount := afterAdmin * (platformPercent / 100)
  let finalNet := afterAdmin - platformAmount
  [("Song Title", valOr row "TITLE"),
   ("ISWC", valOr row "ISWC"),
   ("Composer", valOr row "COMPOSER"),
   ("Date", valOr row "Date From (MM/YYYY)"),
   ("Territory", valOr row "TERRITORY"),
   ("Source", valOr row "SOURCE"),
   ("Usage Count", valOr row "COUNT"),
   ("Gross", JsValue.vnum afterAdmin),
   ("Admin %", JsValue.vnum platformAmount),
   ("Net", JsValue.vnum finalNet)]

/-- `generateCsvContentWithDualPercentage` (processor.ts lines 296-347). -/
def generateCsvContentWithDualPercentage (rows : List Row)
    (columns : List String) (adminPercent platformPercent : ℚ) : String :=
  let outputOrder := [
    "Song Title",
    "ISWC",
    "Composer",
    "Date",
    "Territory",
    "Source",
    "Usage Count",
    "Gross",
    "Admin %",
    "Net"]
  unparse (rows.map (dualTransformRow adminPercent platformPercent)) outputOrder

/-- Codepoint-lexicographic (strict) order on strings, the literal reading of
"lexicographic order of composer names". -/
abbrev lexLt (a b : String) : Prop := a.data < b.data

/-!  Properties of the JavaScript-object model. -/

theorem getProp_objSet_self (r : Row) (k : String) (v : JsValue) :
    getProp (objSet r k v) k = some v := by
  induction r with
  | nil => simp [objSet, getProp, List.lookup]
  | cons p rest ih =>
    obtain ⟨k1, v1⟩ := p
    by_cases h : k1 = k
    · subst h
      simp [objSet, getProp, List.lookup]
    · have hbeq : (k == k1) = false := by simp [Ne.symm h]
      simpa [objSet, h, getProp, List.lookup, hbeq] using ih

theorem getProp_objSet_ne (r : Row) (k q : String) (v : JsValue) (h : q ≠ k) :
    getProp (objSet r k v) q = getProp r q := by
  induction r with
  | nil =>
    have hbeq : (q == k) = false := by simp [h]
    simp [objSet, getProp, List.lookup, hbeq]
  | cons p rest ih =>
    obtain ⟨k1, v1⟩ := p
    by_cases hk : k1 = k
    · subst hk
      have hbeq : (q == k1) = false := by simp [h]
      simp [objSet, getProp, List.lookup, hbeq]
    · cases hq : (q == k1) with
      | true => simp [objSet, hk, getProp, List.lookup, hq]
      | false => simpa [objSet, hk, getProp, List.lookup, hq] using ih

/-!  The `filteredRow` construction always carries the clean composer name in
the `COMPOSER` output column. -/

theorem lookup_mandatory_mapping :
    (List.lookup MANDATORY_COLUMN COLUMN_MAPPING).getD MANDATORY_COLUMN
      = "COMPOSER" := by decide

theorem transform_foldl_composer_keep (cleanName : String) (row : Row)
    (cols : List String) (acc : Row)
    (h : getProp acc "COMPOSER" = some (JsValue.vstr cleanName)) :
    getProp (cols.foldl (transformStep cleanName row) acc) "COMPOSER"
      = some (JsValue.vstr cleanName) := by
  induction cols generalizing acc with
  | nil => simpa using h
  | cons c rest ih =>
    simp only [List.foldl_cons]
    apply ih
    by_cases hc : (List.lookup c COLUMN_MAPPING).getD c = "COMPOSER"
    · simp [transformStep, hc, getProp_objSet_self]
    · simpa [transformStep, hc, getProp_objSet_ne _ _ _ _ (fun he => hc he.symm)]
        using h

theorem transform_foldl_composer_mem (cleanName : String) (row : Row)
    (cols : List String) (acc : Row) (h : MANDATORY_COLUMN ∈ cols) :
    getProp (cols.foldl (transformStep cleanName row) acc) "COMPOSER"
      = some (JsValue.vstr cleanName) := by
  induction cols generalizing acc with
  | nil => cases h
  | cons c rest ih =>
    simp only [List.foldl_cons]
    rcases List.mem_cons.mp h with hc | hc
    · apply transform_foldl_composer_keep
      rw [← hc]
      simp [transformStep, lookup_mandatory_mapping, getProp_objSet_self]
    · exact ih _ hc

theorem transformRow_composer (cleanName : String) (row : Row)
    (cols : List String) (h : MANDATORY_COLUMN ∈ cols) :
    getProp (transformRow cols cleanName row) "COMPOSER"
      = some (JsValue.vstr cleanName) := by
  unfold transformRow
  rw [getProp_objSet_ne _ _ _ _ (by decide)]
  exact transform_foldl_composer_mem cleanName row cols [] h

/-!  Grouping invariants: appending one row to the group map adds exactly one
row, preserves key distinctness, and the collected rows are preserved up to
permutation. -/

theorem mapAppend_sum (m : GroupMap) (k : String) (v : Row) :
    ((mapAppend m k v).map fun p => p.2.length).sum
      = ((m.map fun p => p.2.length).sum) + 1 := by
  induction m with
  | nil => simp [mapAppend]
  | cons p rest ih =>
    obtain ⟨k1, rows⟩ := p
    by_cases h : k1 = k
    · simp [mapAppend, h]
      omega
    · simp [mapAppend, h, ih]
      omega

theorem mapAppend_flatten (m : GroupMap) (k : String) (v : Row) :
    List.Perm ((mapAppend m k v).map fun p => p.2).flatten
      (((m.map fun p => p.2).flatten) ++ [v]) := by
  induction m with
  | nil => simp [mapAppend]
  | cons p rest ih =>
    obtain ⟨k1, rows⟩ := p
    by_cases h : k1 = k
    · simp only [mapAppend, if_pos h, List.map_cons, List.flatten_cons,
        List.append_assoc]
      exact List.Perm.append_left rows List.perm_append_comm
    · simp only [mapAppend, if_neg h, List.map_cons, List.flatten_cons,
        List.append_assoc]
      exact List.Perm.append_left rows ih

theorem mapAppend_keys (m : GroupMap) (k : String) (v : Row) :
    (mapAppend m k v).map Prod.fst
      = if k ∈ m.map Prod.fst then m.map Prod.fst
        else m.map Prod.fst ++ [k] := by
  induction m with
  | nil => simp [mapAppend]
  | cons p rest ih =>
    obtain ⟨k1, rows⟩ := p
    by_cases h : k1 = k
    · simp [mapAppend, h]
    · by_cases hm : k ∈ List.map Prod.fst rest
      · simp [mapAppend, h, ih, hm, Ne.symm h]
      · simp [mapAppend, h, ih, hm, Ne.symm h]

theorem mapAppend_keys_nodup (m : GroupMap) (k : String) (v : Row)
    (h : (m.map Prod.fst).Nodup) :
    ((mapAppend m k v).map Prod.fst).Nodup := by
  rw [mapAppend_keys]
  by_cases hm : k ∈ m.map Prod.fst
  · simpa [hm] using h
  · simpa [hm, List.nodup_append] using h

theorem buildGroupMap_sum (cols : List String) (rawData : List Row) :
    ∀ m : GroupMap,
      ((rawData.foldl (processRow cols) m).map fun p => p.2.length).sum
        = ((m.map fun p => p.2.length).sum) + rawData.length := by
  induction rawData with
  | nil => intro m; simp
  | cons r rest ih =>
    intro m
    simp only [List.foldl_cons, List.length_cons]
    rw [ih, processRow, mapAppend_sum]
    omega

theorem buildGroupMap_flatten (cols : List String) (rawData : List Row) :
    ∀ m : GroupMap,
      List.Perm ((rawData.foldl (processRow cols) m).map fun p => p.2).flatten
        ((((m.map fun p => p.2).flatten)) ++ rawData.map (rowOutputOf cols)) := by
  induction rawData with
  | nil => intro m; simp
  | cons r rest ih =>
    intro m
    simp only [List.foldl_cons, List.map_cons]
    refine (ih (processRow cols m r)).trans ?_
    rw [processRow]
    refine List.Perm.trans (List.Perm.append_right _ (mapAppend_flatten m _ _)) ?_
    simp [List.append_assoc]

theorem buildGroupMap_keys_nodup (cols : List String) (rawData : List Row) :
    ∀ m : GroupMap, (m.map Prod.fst).Nodup →
      ((rawData.foldl (processRow cols) m).map Prod.fst).Nodup := by
  induction rawData with
  | nil => intro m h; simpa using h
  | cons r rest ih =>
    intro m h
    simp only [List.foldl_cons]
    exact ih _ (mapAppend_keys_nodup m _ _ h)

/-!  The comparator-sort model: the result is a permutation of the input and
is pairwise ordered by `sortRel` whenever `sortRel` is transitive. -/

theorem flatten_perm {α : Type} {l1 l2 : List (List α)} (h : List.Perm l1 l2) :
    List.Perm l1.flatten l2.flatten := by
  induction h with
  | nil => exact List.Perm.refl _
  | cons x _ ih => simpa using List.Perm.append_left x ih
  | swap x y l =>
    simp only [List.flatten_cons]
    have h1 : List.Perm ((y ++ x) ++ l.flatten) ((x ++ y) ++ l.flatten) :=
      List.Perm.append_right _ List.perm_append_comm
    simpa [List.append_assoc] using h1
  | trans _ _ ih1 ih2 => exact ih1.trans ih2

theorem insertSorted_perm {α : Type} (cmp : α → α → Int) (x : α) (l : List α) :
    List.Perm (insertSorted cmp x l) (x :: l) := by
  induction l with
  | nil => exact List.Perm.refl _
  | cons y ys ih =>
    simp only [insertSorted]
    by_cases h : cmp y x ≤ 0
    · rw [if_pos h]
      exact (ih.cons y).trans (List.Perm.swap x y ys)
    · rw [if_neg h]

theorem sortByCmp_perm_aux {α : Type} (cmp : α → α → Int) (l : List α) :
    ∀ acc : List α,
      List.Perm (l.foldl (fun a x => insertSorted cmp x a) acc) (acc ++ l) := by
  induction l with
  | nil => intro acc; simp
  | cons x xs ih =>
    intro acc
    simp only [List.foldl_cons]
    refine (ih (insertSorted cmp x acc)).trans ?_
    refine (List.Perm.append_right xs (insertSorted_perm cmp x acc)).trans ?_
    exact List.perm_middle.symm

theorem sortByCmp_perm {α : Type} (cmp : α → α → Int) (l : List α) :
    List.Perm (sortByCmp cmp l) l := by
  simpa using sortByCmp_perm_aux cmp l []

theorem insertSorted_pairwise {α : Type} (cmp : α → α → Int)
    (htrans : ∀ a b c, sortRel cmp a b → sortRel cmp b c → sortRel cmp a c)
    (x : α) (l : List α) (hl : l.Pairwise (sortRel cmp)) :
    (insertSorted cmp x l).Pairwise (sortRel cmp) := by
  induction l with
  | nil => simp [insertSorted]
  | cons y ys ih =>
    rcases List.pairwise_cons.mp hl with ⟨hy, hys⟩
    simp only [insertSorted]
    by_cases h : cmp y x ≤ 0
    · rw [if_pos h]
      refine List.pairwise_cons.mpr ⟨?_, ih hys⟩
      intro z hz
      rcases List.mem_cons.mp ((insertSorted_perm cmp x ys).mem_iff.mp hz) with
        rfl | hz
      · exact Or.inl h
      · exact hy z hz
    · rw [if_neg h]
      have hxy : sortRel cmp x y := Or.inr (by omega)
      refine List.pairwise_cons.mpr ⟨?_, hl⟩
      intro z hz
      rcases List.mem_cons.mp hz with rfl | hz
      · exact hxy
      · exact htrans x y z hxy (hy z hz)

theorem sortByCmp_pairwise_aux {α : Type} (cmp : α → α → Int)
    (htrans : ∀ a b c, sortRel cmp a b → sortRel cmp b c → sortRel cmp a c)
    (l : List α) :
    ∀ acc : List α, acc.Pairwise (sortRel cmp) →
      (l.foldl (fun a x => insertSorted cmp x a) acc).Pairwise (sortRel cmp) := by
  induction l with
  | nil => intro acc h; simpa using h
  | cons x xs ih =>
    intro acc h
    simp only [List.foldl_cons]
    exact ih _ (insertSorted_pairwise cmp htrans x acc h)

theorem sortByCmp_pairwise {α : Type} (cmp : α → α → Int)
    (htrans : ∀ a b c, sortRel cmp a b → sortRel cmp b c → sortRel cmp a c)
    (l : List α) : (sortByCmp cmp l).Pairwise (sortRel cmp) :=
  sortByCmp_pairwise_aux cmp htrans l [] (List.Pairwise.nil)

/-!  Order-theoretic facts about the collation model, giving transitivity of
the bucket comparator. -/

theorem cmpNat_eq_iff (a b : Nat) : cmpNat a b = Ordering.eq ↔ a = b := by
  unfold cmpNat
  split
  · simp
    omega
  · split
    · simp
      omega
    · simp
      omega

theorem cmpNat_swap (a b : Nat) : cmpNat a b = (cmpNat b a).swap := by
  unfold cmpNat
  rcases Nat.lt_trichotomy a b with h | h | h
  · simp [h, Nat.not_lt_of_lt h, Ordering.swap]
  · simp [h, Nat.lt_irrefl, Ordering.swap]
  · simp [h, Nat.not_lt_of_lt h, Ordering.swap]

theorem cmpNat_lt_iff (a b : Nat) : cmpNat a b = Ordering.lt ↔ a < b := by
  unfold cmpNat
  split
  · simp
    omega
  · split <;> simp <;> omega

theorem cmpNatList_eq_iff :
    ∀ a b : List Nat, cmpNatList a b = Ordering.eq ↔ a = b := by
  intro a
  induction a with
  | nil =>
    intro b
    cases b <;> simp [cmpNatList]
  | cons x xs ih =>
    intro b
    cases b with
    | nil => simp [cmpNatList]
    | cons y ys =>
      simp only [cmpNatList]
      cases h : cmpNat x y with
      | eq => simp [ih, (cmpNat_eq_iff x y).mp h]
      | lt =>
        have : x ≠ y := by
          intro he
          rw [(cmpNat_eq_iff x y).mpr he] at h
          cases h
        simp [this]
      | gt =>
        have : x ≠ y := by
          intro he
          rw [(cmpNat_eq_iff x y).mpr he] at h
          cases h
        simp [this]

theorem cmpNatList_swap :
    ∀ a b : List Nat, cmpNatList a b = (cmpNatList b a).swap := by
  intro a
  induction a with
  | nil =>
    intro b
    cases b <;> simp [cmpNatList, Ordering.swap]
  | cons x xs ih =>
    intro b
    cases b with
    | nil => simp [cmpNatList, Ordering.swap]
    | cons y ys =>
      simp only [cmpNatList]
      rw [cmpNat_swap x y]
      cases h : cmpNat y x <;> simp [Ordering.swap, ih ys]

theorem cmpNatList_lt_trans :
    ∀ a b c : List Nat, cmpNatList a b = Ordering.lt →
      cmpNatList b c = Ordering.lt → cmpNatList a c = Ordering.lt := by
  intro a
  induction a with
  | nil =>
    intro b c hab hbc
    cases b with
    | nil => cases hab
    | cons y ys =>
      cases c with
      | nil => cases hbc
      | cons z zs => simp [cmpNatList]
  | cons x xs ih =>
    intro b c hab hbc
    cases b with
    | nil => cases hab
    | cons y ys =>
      cases c with
      | nil => cases hbc
      | cons z zs =>
        simp only [cmpNatList] at hab hbc ⊢
        cases hxy : cmpNat x y with
        | gt => rw [hxy] at hab; cases hab
        | eq =>
          have hxyeq := (cmpNat_eq_iff x y).mp hxy
          rw [hxy] at hab
          cases hyz : cmpNat y z with
          | gt => rw [hyz] at hbc; cases hbc
          | eq =>
            have hyzeq := (cmpNat_eq_iff y z).mp hyz
            rw [hyz] at hbc
            rw [(cmpNat_eq_iff x z).mpr (hxyeq.trans hyzeq)]
            exact ih ys zs hab hbc
          | lt =>
            rw [(cmpNat_lt_iff x z).mpr (hxyeq ▸ (cmpNat_lt_iff y z).mp hyz)]
        | lt =>
          cases hyz : cmpNat y z with
          | gt => rw [hyz] at hbc; cases hbc
          | eq =>
            have hyzeq := (cmpNat_eq_iff y z).mp hyz
            rw [(cmpNat_lt_iff x z).mpr (hyzeq ▸ (cmpNat_lt_iff x y).mp hxy)]
          | lt =>
            have h1 := (cmpNat_lt_iff x y).mp hxy
            have h2 := (cmpNat_lt_iff y z).mp hyz
            rw [(cmpNat_lt_iff x z).mpr (h1.trans h2)]

theorem pairCmp_eq_iff (x y : List Nat × List Nat) :
    pairCmp x y = Ordering.eq ↔ x = y := by
  unfold pairCmp
  cases h : cmpNatList x.1 y.1 with
  | eq =>
    have h1 := (cmpNatList_eq_iff x.1 y.1).mp h
    constructor
    · intro h2
      exact Prod.ext h1 ((cmpNatList_eq_iff x.2 y.2).mp h2)
    · intro h2
      exact (cmpNatList_eq_iff x.2 y.2).mpr (congrArg Prod.snd h2)
  | lt =>
    simp only []
    constructor
    · intro h2; cases h2
    · intro h2
      rw [h2] at h
      rw [(cmpNatList_eq_iff y.1 y.1).mpr rfl] at h
      cases h
  | gt =>
    simp only []
    constructor
    · intro h2; cases h2
    · intro h2
      rw [h2] at h
      rw [(cmpNatList_eq_iff y.1 y.1).mpr rfl] at h
      cases h

theorem pairCmp_swap (x y : List Nat × List Nat) :
    pairCmp x y = (pairCmp y x).swap := by
  unfold pairCmp
  rw [cmpNatList_swap x.1 y.1, cmpNatList_swap x.2 y.2]
  cases cmpNatList y.1 x.1 <;> simp [Ordering.swap]

theorem pairCmp_lt_trans (x y z : List Nat × List Nat)
    (hab : pairCmp x y = Ordering.lt) (hbc : pairCmp y z = Ordering.lt) :
    pairCmp x z = Ordering.lt := by
  unfold pairCmp at hab hbc ⊢
  cases h1 : cmpNatList x.1 y.1 with
  | gt => rw [h1] at hab; cases hab
  | eq =>
    have he1 := (cmpNatList_eq_iff x.1 y.1).mp h1
    rw [h1] at hab
    cases h2 : cmpNatList y.1 z.1 with
    | gt => rw [h2] at hbc; cases hbc
    | eq =>
      have he2 := (cmpNatList_eq_iff y.1 z.1).mp h2
      rw [h2] at hbc
      rw [(cmpNatList_eq_iff x.1 z.1).mpr (he1.trans he2)]
      exact cmpNatList_lt_trans x.2 y.2 z.2 hab hbc
    | lt =>
      rw [← he1] at h2
      rw [h2]
  | lt =>
    cases h2 : cmpNatList y.1 z.1 with
    | gt => rw [h2] at hbc; cases hbc
    | eq =>
      have he2 := (cmpNatList_eq_iff y.1 z.1).mp h2
      rw [← he2, h1]
    | lt =>
      rw [cmpNatList_lt_trans x.1 y.1 z.1 h1 h2]

theorem pairCmp_notgt_trans (x y z : List Nat × List Nat)
    (hab : pairCmp x y ≠ Ordering.gt) (hbc : pairCmp y z ≠ Ordering.gt) :
    pairCmp x z ≠ Ordering.gt := by
  cases h1 : pairCmp x y with
  | gt => exact absurd h1 hab
  | eq =>
    rw [(pairCmp_eq_iff x y).mp h1]
    exact hbc
  | lt =>
    cases h2 : pairCmp y z with
    | gt => exact absurd h2 hbc
    | eq =>
      rw [← (pairCmp_eq_iff y z).mp h2, h1]
      simp
    | lt =>
      rw [pairCmp_lt_trans x y z h1 h2]
      simp

theorem strCollate_swap (a b : String) :
    strCollate a b = (strCollate b a).swap :=
  pairCmp_swap _ _

theorem localeCompare_le_iff (a b : String) :
    localeCompare a b ≤ 0 ↔ strCollate a b ≠ Ordering.gt := by
  unfold localeCompare
  cases h : strCollate a b <;> simp [ordInt]

theorem localeCompare_pos_iff (a b : String) :
    0 < localeCompare b a ↔ strCollate a b = Ordering.lt := by
  unfold localeCompare
  rw [strCollate_swap b a]
  cases h : strCollate a b <;> simp [ordInt, Ordering.swap]

theorem localeCompare_le_trans (a b c : String)
    (hab : localeCompare a b ≤ 0) (hbc : localeCompare b c ≤ 0) :
    localeCompare a c ≤ 0 := by
  rw [localeCompare_le_iff] at hab hbc ⊢
  exact pairCmp_notgt_trans _ _ _ hab hbc

theorem localeCompare_sortRel_iff (a b : String) :
    (localeCompare a b ≤ 0 ∨ 0 < localeCompare b a) ↔ localeCompare a b ≤ 0 := by
  constructor
  · intro h
    rcases h with h | h
    · exact h
    · rw [localeCompare_pos_iff] at h
      rw [localeCompare_le_iff, h]
      simp
  · exact Or.inl

theorem bucketCmp_sortRel_trans (a b c : ProcessedComposerData)
    (hab : sortRel bucketCmp a b) (hbc : sortRel bucketCmp b c) :
    sortRel bucketCmp a c := by
  by_cases hc : c.composerName = OUTLIERS_GROUP
  · by_cases ha : a.composerName = OUTLIERS_GROUP
    · exact Or.inr (by simp [bucketCmp, hc])
    · exact Or.inl (by simp [bucketCmp, ha, hc])
  · by_cases hb : b.composerName = OUTLIERS_GROUP
    · exfalso
      rcases hbc with h | h <;> simp [bucketCmp, hb, hc] at h
    · by_cases ha : a.composerName = OUTLIERS_GROUP
      · exfalso
        rcases hab with h | h <;> simp [bucketCmp, ha, hb] at h
      · have h1 : localeCompare a.composerName b.composerName ≤ 0 := by
          rw [← localeCompare_sortRel_iff]
          rcases hab with h | h
          · exact Or.inl (by simpa [bucketCmp, ha, hb] using h)
          · exact Or.inr (by simpa [bucketCmp, ha, hb] using h)
        have h2 : localeCompare b.composerName c.composerName ≤ 0 := by
          rw [← localeCompare_sortRel_iff]
          rcases hbc with h | h
          · exact Or.inl (by simpa [bucketCmp, hb, hc] using h)
          · exact Or.inr (by simpa [bucketCmp, hb, hc] using h)
        exact Or.inl (by
          simpa [bucketCmp, ha, hc] using localeCompare_le_trans _ _ _ h1 h2)

theorem bucketCmp_sortRel_imp (a b : ProcessedComposerData)
    (h : sortRel bucketCmp a b) :
    b.composerName = OUTLIERS_GROUP
      ∨ (a.composerName ≠ OUTLIERS_GROUP
          ∧ localeCompare a.composerName b.composerName ≤ 0) := by
  by_cases hb : b.composerName = OUTLIERS_GROUP
  · exact Or.inl hb
  · right
    by_cases ha : a.composerName = OUTLIERS_GROUP
    · exfalso
      rcases h with h | h <;> simp [bucketCmp, ha, hb] at h
    · refine ⟨ha, ?_⟩
      rw [← localeCompare_sortRel_iff]
      rcases h with h | h
      · exact Or.inl (by simpa [bucketCmp, ha, hb] using h)
      · exact Or.inr (by simpa [bucketCmp, ha, hb] using h)

/-!  Resolver facts: the group a raw label resolves to depends only on its
normalized form, and the scan returns the first containment match. -/

theorem findComposerLoop_groupName_raw (n a b : String) :
    ∀ roster : List String,
      (findComposerLoop n a roster).groupName
        = (findComposerLoop n b roster).groupName := by
  intro roster
  induction roster with
  | nil => rfl
  | cons k rest ih =>
    simp only [findComposerLoop]
    by_cases h : strIncludes n (normalizeForComparison k) = true
    · rw [if_pos h, if_pos h]
    · rw [if_neg h, if_neg h]
      exact ih

theorem findComposerLoop_first (n raw : String) :
    ∀ (roster : List String) (c : String), c ∈ roster →
      strIncludes n (normalizeForComparison c) = true →
      ∃ l1 l2, roster = l1 ++ (findComposerLoop n raw roster).groupName :: l2
        ∧ strIncludes n
            (normalizeForComparison (findComposerLoop n raw roster).groupName)
            = true
        ∧ ∀ e ∈ l1, strIncludes n (normalizeForComparison e) = false := by
  intro roster
  induction roster with
  | nil => intro c hc; cases hc
  | cons k rest ih =>
    intro c hc hm
    by_cases hk : strIncludes n (normalizeForComparison k) = true
    · refine ⟨[], rest, ?_, ?_, by simp⟩
      · simp [findComposerLoop, hk]
      · simp [findComposerLoop, hk]
    · have hc2 : c ∈ rest := by
        rcases List.mem_cons.mp hc with rfl | hc2
        · exact absurd hm hk
        · exact hc2
      obtain ⟨l1, l2, heq, hmatch, hall⟩ := ih c hc2 hm
      refine ⟨k :: l1, l2, ?_, ?_, ?_⟩
      · simp only [findComposerLoop, if_neg hk]
        rw [List.cons_append]
        exact congrArg (k :: ·) heq
      · simpa only [findComposerLoop, if_neg hk] using hmatch
      · intro e he
        rcases List.mem_cons.mp he with rfl | he2
        · simpa using hk
        · exact hall e he2

theorem processRawData_fst (rawData : List Row) (cols : List String) :
    (processRawData rawData cols).1
      = sortByCmp bucketCmp ((buildGroupMap rawData cols).map toBucket) := rfl

/-!  The claims. -/

/-- Claim C1: for every input row list and selected-column list, the buckets
returned by `processRawData` partition the input rows — the transformed rows
collected over all buckets are exactly the transforms of the input rows (each
input row lands in exactly one bucket), the sum of `rowCount` over all
buckets equals the input length, and `stats.totalRows` equals the input row
count. -/
theorem claim_C1_partition (rawData : List Row) (cols : List String) :
    (((processRawData rawData cols).1.map fun b => b.rowCount).sum
        = rawData.length)
    ∧ ((processRawData rawData cols).2.totalRows = rawData.length)
    ∧ List.Perm (((processRawData rawData cols).1.map fun b => b.rows).flatten)
        (rawData.map (rowOutputOf cols)) := by
  refine ⟨?_, rfl, ?_⟩
  · rw [processRawData_fst]
    rw [((sortByCmp_perm bucketCmp _).map fun b => b.rowCount).sum_eq]
    rw [List.map_map]
    have hcomp : ((fun b : ProcessedComposerData => b.rowCount) ∘ toBucket)
        = fun p : String × List Row => p.2.length := rfl
    rw [hcomp]
    simpa using buildGroupMap_sum cols rawData []
  · rw [processRawData_fst]
    refine (flatten_perm ((sortByCmp_perm bucketCmp _).map
      fun b => b.rows)).trans ?_
    rw [List.map_map]
    have hcomp : ((fun b : ProcessedComposerData => b.rows) ∘ toBucket)
        = fun p : String × List Row => p.2 := rfl
    rw [hcomp]
    simpa using buildGroupMap_flatten cols rawData []

/-- Claim C2 (corrected): the bucket names returned by `processRawData` are
distinct, the catch-all bucket (if present) comes last, and every other pair
of buckets appears in ascending order of the sort comparator, which is
`localeCompare` (case-insensitive collation order), not the codepoint-
lexicographic order the claim literally names. -/
theorem claim_C2_bucket_order (rawData : List Row) (cols : List String) :
    (((processRawData rawData cols).1.map fun b => b.composerName).Nodup)
    ∧ List.Pairwise
        (fun a b => b = OUTLIERS_GROUP
          ∨ (a ≠ OUTLIERS_GROUP ∧ localeCompare a b ≤ 0))
        ((processRawData rawData cols).1.map fun b => b.composerName) := by
  constructor
  · rw [processRawData_fst]
    rw [(((sortByCmp_perm bucketCmp _).map fun b => b.composerName)).nodup_iff]
    rw [List.map_map]
    have hcomp : ((fun b : ProcessedComposerData => b.composerName) ∘ toBucket)
        = (Prod.fst : String × List Row → String) := rfl
    rw [hcomp]
    exact buildGroupMap_keys_nodup cols rawData [] (by simp)
  · rw [processRawData_fst]
    apply List.pairwise_map.mpr
    exact (sortByCmp_pairwise bucketCmp bucketCmp_sortRel_trans _).imp
      fun {a b} h => bucketCmp_sortRel_imp a b h

/-- Counterexample to claim C2 as stated: with two rows resolving to the
roster entries "ANDRAWES MESHACH" and "Almos Balla", the produced bucket
order is ["Almos Balla", "ANDRAWES MESHACH"] (the comparator is
`localeCompare`), yet "ANDRAWES MESHACH" precedes "Almos Balla" in
codepoint-lexicographic order, so the adjacent non-catch-all pair is not in
ascending lexicographic order. -/
theorem claim_C2_lexicographic_cex :
    (((processRawData
        [[("Song Composer(s)", JsValue.vstr "ANDRAWES MESHACH")],
          [("Song Composer(s)", JsValue.vstr "Almos Balla")]]
        ["Song Composer(s)"]).1.map fun b => b.composerName)
      = ["Almos Balla", "ANDRAWES MESHACH"])
    ∧ lexLt "ANDRAWES MESHACH" "Almos Balla"
    ∧ ("Almos Balla" : String) ≠ OUTLIERS_GROUP
    ∧ ("ANDRAWES MESHACH" : String) ≠ OUTLIERS_GROUP := by decide

/-- Claim C3: when a raw composer label contains (after normalization) one or
more roster entries, `findActualComposer` returns the one appearing earliest
in the fixed roster order — the roster splits as `l1 ++ result :: l2` where
the result matches and nothing in the prefix `l1` matches. -/
theorem claim_C3_first_match (raw c : String) (hc : c ∈ KNOWN_COMPOSERS)
    (hm : composerMatches raw c = true) :
    ∃ l1 l2,
      KNOWN_COMPOSERS = l1 ++ (findActualComposer raw).groupName :: l2
        ∧ composerMatches raw (findActualComposer raw).groupName = true
        ∧ ∀ e ∈ l1, composerMatches raw e = false := by
  have h := findComposerLoop_first (normalizeForComparison raw) raw
    KNOWN_COMPOSERS c hc hm
  simpa [composerMatches, findActualComposer] using h

/-- Witness for C3 at the raw label "YU NORINOBU YU", which contains both
the roster entry "Norinobu Yu" (index 21) and "YU NORINOBU" (index 27): the
scan returns the earlier one. -/
theorem claim_C3_first_match_witness :
    (("YU NORINOBU" : String) ∈ KNOWN_COMPOSERS
      ∧ composerMatches "YU NORINOBU YU" "YU NORINOBU" = true
      ∧ composerMatches "YU NORINOBU YU" "Norinobu Yu" = true
      ∧ (findActualComposer "YU NORINOBU YU").groupName = "Norinobu Yu")
    ∧ ∃ l1 l2,
      KNOWN_COMPOSERS = l1 ++ (findActualComposer "YU NORINOBU YU").groupName :: l2
        ∧ composerMatches "YU NORINOBU YU"
            (findActualComposer "YU NORINOBU YU").groupName = true
        ∧ ∀ e ∈ l1, composerMatches "YU NORINOBU YU" e = false :=
  ⟨⟨by decide, by decide, by decide, by decide⟩,
   claim_C3_first_match "YU NORINOBU YU" "YU NORINOBU" (by decide) (by decide)⟩

/-- Claim C4: single-cut mode computes `cut1 = base * p1/100` and
`net = base - cut1`; dual-cut mode takes the first cut from the base, the
second cut from the resulting intermediate (not the original base), and the
final net is the intermediate minus the second cut — for every base and all
percentages, with no clamping. -/
theorem claim_C4_split (row : Row) (base p1 p2 : ℚ)
    (hb : baseAmountOf row = base) :
    (getProp (adminTransformRow p1 row) "Administration Amount"
        = some (JsValue.vnum (base * (p1 / 100)))
      ∧ getProp (adminTransformRow p1 row) "Net Amount"
        = some (JsValue.vnum (base - base * (p1 / 100))))
    ∧ (getProp (dualTransformRow p1 p2 row) "Gross"
        = some (JsValue.vnum (base - base * (p1 / 100)))
      ∧ getProp (dualTransformRow p1 p2 row) "Admin %"
        = some (JsValue.vnum ((base - base * (p1 / 100)) * (p2 / 100)))
      ∧ getProp (dualTransformRow p1 p2 row) "Net"
        = some (JsValue.vnum ((base - base * (p1 / 100))
            - (base - base * (p1 / 100)) * (p2 / 100)))) := by
  subst hb
  exact ⟨⟨rfl, rfl⟩, rfl, rfl, rfl⟩

/-- Witness for C4 at base 100, p1 = 15, p2 = 10: cut1 = 15, net = 85,
intermediate = 85, second cut = 8.5, final net = 76.5. -/
theorem claim_C4_split_witness :
    baseAmountOf [("NET AMOUNT", JsValue.vstr "100")] = 100
    ∧ ((100 : ℚ) * (15 / 100) = 15 ∧ (100 : ℚ) - 100 * (15 / 100) = 85
        ∧ ((100 : ℚ) - 100 * (15 / 100)) * (10 / 100) = 17 / 2
        ∧ ((100 : ℚ) - 100 * (15 / 100))
            - ((100 : ℚ) - 100 * (15 / 100)) * (10 / 100) = 153 / 2)
    ∧ ((getProp (adminTransformRow 15 [("NET AMOUNT", JsValue.vstr "100")])
          "Administration Amount" = some (JsValue.vnum ((100 : ℚ) * (15 / 100)))
        ∧ getProp (adminTransformRow 15 [("NET AMOUNT", JsValue.vstr "100")])
          "Net Amount" = some (JsValue.vnum ((100 : ℚ) - 100 * (15 / 100))))
      ∧ (getProp (dualTransformRow 15 10 [("NET AMOUNT", JsValue.vstr "100")])
          "Gross" = some (JsValue.vnum ((100 : ℚ) - 100 * (15 / 100)))
        ∧ getProp (dualTransformRow 15 10 [("NET AMOUNT", JsValue.vstr "100")])
          "Admin %" = some (JsValue.vnum (((100 : ℚ) - 100 * (15 / 100)) * (10 / 100)))
        ∧ getProp (dualTransformRow 15 10 [("NET AMOUNT", JsValue.vstr "100")])
          "Net" = some (JsValue.vnum (((100 : ℚ) - 100 * (15 / 100))
            - ((100 : ℚ) - 100 * (15 / 100)) * (10 / 100))))) :=
  ⟨by decide, by norm_num,
   claim_C4_split [("NET AMOUNT", JsValue.vstr "100")] 100 15 10 (by decide)⟩

/-- Claim C5: resolution is invariant under normalization — two raw labels
with the same normalized form (casing, accent or surrounding-whitespace
variants of each other) resolve to the same identity (the same group). -/
theorem claim_C5_resolve_invariant (x y : String)
    (h : normalizeForComparison x = normalizeForComparison y) :
    (findActualComposer x).groupName = (findActualComposer y).groupName := by
  unfold findActualComposer
  rw [h]
  exact findComposerLoop_groupName_raw (normalizeForComparison y) x y
    KNOWN_COMPOSERS

/-- Witness for C5: an accented, upper-cased, padded variant of the roster
entry "Almos Balla" embedded in prefix text resolves to the same group as
the plain lowercase form. -/
theorem claim_C5_resolve_invariant_witness :
    normalizeForComparison "Good Life: ÁLMOS BALLA "
        = normalizeForComparison "good life: almos balla"
    ∧ (findActualComposer "Good Life: ÁLMOS BALLA ").groupName
        = (findActualComposer "good life: almos balla").groupName :=
  ⟨by decide,
   claim_C5_resolve_invariant "Good Life: ÁLMOS BALLA " "good life: almos balla"
     (by decide)⟩

/-- Claim C6: when the mandatory column "Song Composer(s)" is among the
selected columns, the transformed row's COMPOSER value is the resolved
identity's clean name, not the raw cell text. -/
theorem claim_C6_composer_canonical (row : Row) (cols : List String)
    (h : MANDATORY_COLUMN ∈ cols) :
    getProp (rowOutputOf cols row) "COMPOSER"
      = some (JsValue.vstr
          (findActualComposer (rawComposerTextOf row)).cleanName) := by
  unfold rowOutputOf
  exact transformRow_composer _ row cols h

/-- Witness for C6: a noisy cell "feat. FELIX SCHUBERT (PRS)" comes out as
the canonical roster spelling "FELIX SCHUBERT". -/
theorem claim_C6_composer_canonical_witness :
    (MANDATORY_COLUMN ∈ ESSENTIAL_COLUMNS)
    ∧ getProp (rowOutputOf ESSENTIAL_COLUMNS
          [("Song Composer(s)", JsValue.vstr "feat. FELIX SCHUBERT (PRS)")])
          "COMPOSER"
        = some (JsValue.vstr (findActualComposer (rawComposerTextOf
            [("Song Composer(s)",
              JsValue.vstr "feat. FELIX SCHUBERT (PRS)")])).cleanName)
    ∧ (findActualComposer (rawComposerTextOf
          [("Song Composer(s)",
            JsValue.vstr "feat. FELIX SCHUBERT (PRS)")])).cleanName
        = "FELIX SCHUBERT" :=
  ⟨by decide,
   claim_C6_composer_canonical
     [("Song Composer(s)", JsValue.vstr "feat. FELIX SCHUBERT (PRS)")]
     ESSENTIAL_COLUMNS (by decide),
   by decide⟩

/-- Claim C7: serializing a bucket with two selected-column lists that are
permutations of each other yields byte-identical output —
`generateCsvContent` uses a fixed output column order and never consults the
caller's selection order. -/
theorem claim_C7_column_order_invariant (rows : List Row)
    (cols1 cols2 : List String) (h : List.Perm cols1 cols2) :
    generateCsvContent rows cols1 = generateCsvContent rows cols2 := rfl

/-- Witness for C7 on a one-row bucket and two permuted column lists. -/
theorem claim_C7_column_order_invariant_witness :
    List.Perm ["Song Title", "Amount"] ["Amount", "Song Title"]
    ∧ generateCsvContent [[("TITLE", JsValue.vstr "Track A")]]
          ["Song Title", "Amount"]
        = generateCsvContent [[("TITLE", JsValue.vstr "Track A")]]
          ["Amount", "Song Title"] :=
  ⟨List.Perm.swap "Amount" "Song Title" [],
   claim_C7_column_order_invariant [[("TITLE", JsValue.vstr "Track A")]]
     ["Song Title", "Amount"] ["Amount", "Song Title"]
     (List.Perm.swap "Amount" "Song Title" [])⟩

/-- Claim C8: bucket filename derivation is a pure function of the identity
name — lowercase, drop spaces, append the fixed suffix "_royalties.csv"; in
particular "Jane Doe" maps to "janedoe_royalties.csv", and the fixed suffix
always terminates the result. -/
theorem claim_C8_filename (name : String) :
    normalizeFilename "Jane Doe" = "janedoe_royalties.csv"
    ∧ (normalizeFilename name).data
        = ((name.data.map Char.toLower).filter fun c => !(c == ' '))
            ++ "_royalties.csv".data
    ∧ List.IsSuffix "_royalties.csv".data (normalizeFilename name).data := by
  have hdata : (normalizeFilename name).data
      = ((name.data.map Char.toLower).filter fun c => !(c == ' '))
          ++ "_royalties.csv".data := by
    simp [normalizeFilename, String.data_append]
  exact ⟨by decide, hdata, ⟨_, hdata.symm⟩⟩

/-- Claim C9: a falsy "Song Composer(s)" cell — absent, null, empty string,
zero, or false — is replaced by the literal "Unknown Composer", which
resolves to the catch-all group, and the COMPOSER output value is the string
"Unknown Composer". -/
theorem claim_C9_falsy_composer (row : Row) (cols : List String)
    (h : getProp row MANDATORY_COLUMN = none
       ∨ getProp row MANDATORY_COLUMN = some JsValue.vnull
       ∨ getProp row MANDATORY_COLUMN = some (JsValue.vstr "")
       ∨ getProp row MANDATORY_COLUMN = some (JsValue.vnum 0)
       ∨ getProp row MANDATORY_COLUMN = some (JsValue.vbool false)) :
    rawComposerTextOf row = "Unknown Composer"
    ∧ (findActualComposer (rawComposerTextOf row)).groupName = OUTLIERS_GROUP
    ∧ (findActualComposer (rawComposerTextOf row)).cleanName
        = "Unknown Composer"
    ∧ (MANDATORY_COLUMN ∈ cols →
        getProp (rowOutputOf cols row) "COMPOSER"
          = some (JsValue.vstr "Unknown Composer")) := by
  have h1 : rawComposerTextOf row = "Unknown Composer" := by
    unfold rawComposerTextOf
    rcases h with h | h | h | h | h <;> rw [h] <;> simp [truthyV]
  refine ⟨h1, ?_, ?_, ?_⟩
  · rw [h1]; decide
  · rw [h1]; decide
  · intro hm
    unfold rowOutputOf
    rw [h1]
    have h2 : (findActualComposer "Unknown Composer").cleanName
        = "Unknown Composer" := by decide
    rw [h2]
    exact transformRow_composer _ row cols hm

/-- Witness for C9 at a numeric-zero composer cell. -/
theorem claim_C9_falsy_composer_witness :
    (getProp [("Song Composer(s)", JsValue.vnum 0)] MANDATORY_COLUMN
        = some (JsValue.vnum 0))
    ∧ (rawComposerTextOf [("Song Composer(s)", JsValue.vnum 0)]
          = "Unknown Composer"
      ∧ (findActualComposer (rawComposerTextOf
            [("Song Composer(s)", JsValue.vnum 0)])).groupName = OUTLIERS_GROUP
      ∧ (findActualComposer (rawComposerTextOf
            [("Song Composer(s)", JsValue.vnum 0)])).cleanName
          = "Unknown Composer"
      ∧ (MANDATORY_COLUMN ∈ [MANDATORY_COLUMN] →
          getProp (rowOutputOf [MANDATORY_COLUMN]
              [("Song Composer(s)", JsValue.vnum 0)]) "COMPOSER"
            = some (JsValue.vstr "Unknown Composer"))) :=
  ⟨by decide,
   claim_C9_falsy_composer [("Song Composer(s)", JsValue.vnum 0)]
     [MANDATORY_COLUMN]
     (Or.inr (Or.inr (Or.inr (Or.inl (by decide)))))⟩

/-- Claim C10: in the dual-cut export, the "Gross" column holds the
intermediate amount after the first cut (not the original base — they differ
whenever base and p1 are nonzero), "Admin %" holds the second cut taken from
that intermediate, and "Net" holds the intermediate minus the second cut. -/
theorem claim_C10_dual_columns (row : Row) (base p1 p2 : ℚ)
    (hb : baseAmountOf row = base) :
    getProp (dualTransformRow p1 p2 row) "Gross"
        = some (JsValue.vnum (base - base * (p1 / 100)))
    ∧ getProp (dualTransformRow p1 p2 row) "Admin %"
        = some (JsValue.vnum ((base - base * (p1 / 100)) * (p2 / 100)))
    ∧ getProp (dualTransformRow p1 p2 row) "Net"
        = some (JsValue.vnum ((base - base * (p1 / 100))
            - (base - base * (p1 / 100)) * (p2 / 100)))
    ∧ (base ≠ 0 → p1 ≠ 0 → base - base * (p1 / 100) ≠ base) := by
  subst hb
  refine ⟨rfl, rfl, rfl, ?_⟩
  intro h0 hp heq
  have hz : baseAmountOf row * (p1 / 100) = 0 := by linarith
  rcases mul_eq_zero.mp hz with h | h
  · exact h0 h
  · rcases div_eq_zero_iff.mp h with h | h
    · exact hp h
    · norm_num at h

/-- Witness for C10 at base 100, p1 = 15, p2 = 10: "Gross" is the
intermediate 85, which differs from the base 100. -/
theorem claim_C10_dual_columns_witness :
    baseAmountOf [("NET AMOUNT", JsValue.vstr "100")] = 100
    ∧ (getProp (dualTransformRow 15 10 [("NET AMOUNT", JsValue.vstr "100")])
          "Gross" = some (JsValue.vnum ((100 : ℚ) - 100 * (15 / 100)))
      ∧ getProp (dualTransformRow 15 10 [("NET AMOUNT", JsValue.vstr "100")])
          "Admin %"
          = some (JsValue.vnum (((100 : ℚ) - 100 * (15 / 100)) * (10 / 100)))
      ∧ getProp (dualTransformRow 15 10 [("NET AMOUNT", JsValue.vstr "100")])
          "Net" = some (JsValue.vnum (((100 : ℚ) - 100 * (15 / 100))
            - ((100 : ℚ) - 100 * (15 / 100)) * (10 / 100)))
      ∧ ((100 : ℚ) ≠ 0 → (15 : ℚ) ≠ 0
          → (100 : ℚ) - 100 * (15 / 100) ≠ 100)) :=
  ⟨by decide,
   claim_C10_dual_columns [("NET AMOUNT", JsValue.vstr "100")] 100 15 10
     (by decide)⟩

end RoyaltySplitter
